import Mathlib

/-!
Verification development for the terra configuration core
(`terra/core/settings.py` and `terra/core/signals.py`).

The nested JSON-like settings container is modelled as an association list
of string keys to `Value`s, mirroring Python `dict` semantics (unique keys,
insertion order preserved, assignment to an existing key keeps its
position).  A `settings_property` function is modelled by an identifier
into an environment `env : Nat -> Value` giving the value the function
returns when called with the settings root; `ExpandedString` is the
`expanded := true` tag on string values.  Environment-variable and
home-directory expansion (`os.path.expandvars` / `os.path.expanduser`) are
abstract string transformers passed as parameters.

The helpers `nested_update`, `nested_in_dict` and `nested_patch_inplace`
come from the external `vsi.tools.python` dependency, which is not part of
this repository; they are modelled from the spec: nested merges go
key-by-key, recursively, never wholesale-replacing a nested container
unless the incoming value at that key is not a container, and
pattern-containment is the deep recursive "sub-structure present with
equal leaf values" test.
-/

namespace Terra

/-- A settings value: JSON scalars, arrays, nested objects, a
`settings_property` function (identified by `Nat` into an environment), and
strings carrying the `ExpandedString` tag in their second field. -/
inductive Value where
  | null : Value
  | str : String → Bool → Value
  | num : Int → Value
  | bool : Bool → Value
  | arr : List Value → Value
  | obj : List (String × Value) → Value
  | computed : Nat → Value

abbrev Entries := List (String × Value)

/-- Python `dict` lookup on the modelled container. -/
def findEntry : Entries → String → Option Value
  | [], _ => none
  | (k, v) :: rest, name => if k = name then some v else findEntry rest name

/-- Python `dict` assignment to an existing key: the entry keeps its
position.  If the key is absent the list is unchanged. -/
def replaceEntry : Entries → String → Value → Entries
  | [], _, _ => []
  | (k, v) :: rest, name, newV =>
    if k = name then (k, newV) :: rest else (k, v) :: replaceEntry rest name newV

/-- Is this value a nested container (a Python `dict`)? -/
def Value.isObjB : Value → Bool
  | .obj _ => true
  | _ => false

/-- Is this value a `settings_property` function? -/
def Value.isComputedB : Value → Bool
  | .computed _ => true
  | _ => false

mutual
/-- `nested_update` merge of a single incoming value onto an existing one:
two containers merge recursively, anything else wholesale-replaces.
Modelled from the spec (the helper lives in the external `vsi` package). -/
def updateValue : Value → Value → Value
  | .obj d, .obj u => .obj (updateEntries d u)
  | _, u => u
termination_by _ u => sizeOf u

/-- `nested_update(d, u)`: iterate over `u`'s entries in order, merging each
into `d` (recursively for container-onto-container). -/
def updateEntries : Entries → Entries → Entries
  | d, [] => d
  | d, (k, v) :: rest =>
    match findEntry d k with
    | some dv => updateEntries (replaceEntry d k (updateValue dv v)) rest
    | none => updateEntries (d ++ [(k, v)]) rest
termination_by _ u => sizeOf u
end

/-- The effect of one `nested_update` step for a single key. -/
def updateStep (d : Entries) (k : String) (v : Value) : Entries :=
  match findEntry d k with
  | some dv => replaceEntry d k (updateValue dv v)
  | none => d ++ [(k, v)]

theorem updateEntries_nil (d : Entries) : updateEntries d [] = d := by
  simp [updateEntries]

theorem updateEntries_cons (d : Entries) (k : String) (v : Value) (rest : Entries) :
    updateEntries d ((k, v) :: rest) = updateEntries (updateStep d k v) rest := by
  cases h : findEntry d k <;> simp [updateEntries, updateStep, h]

theorem updateValue_obj (des ues : Entries) :
    updateValue (.obj des) (.obj ues) = .obj (updateEntries des ues) := by
  simp [updateValue]

theorem updateValue_of_not_obj_u (dv uv : Value) (h : uv.isObjB = false) :
    updateValue dv uv = uv := by
  cases dv <;> cases uv <;> simp_all [updateValue, Value.isObjB]

theorem updateValue_of_not_obj_d (dv uv : Value) (h : dv.isObjB = false) :
    updateValue dv uv = uv := by
  cases dv <;> cases uv <;> simp_all [updateValue, Value.isObjB]

mutual
/-- Well-formedness of a modelled value: every nested container has
pairwise-distinct keys, as every Python `dict` does by construction. -/
def Value.wfB : Value → Bool
  | .obj es => entriesWF es
  | .arr vs => arrWF vs
  | _ => true
termination_by v => sizeOf v

/-- Well-formedness of a container's entry list: keys pairwise distinct and
all values well-formed. -/
def entriesWF : Entries → Bool
  | [] => true
  | (k, v) :: rest => rest.all (fun p => p.1 != k) && Value.wfB v && entriesWF rest
termination_by es => sizeOf es

/-- Well-formedness of an array's elements. -/
def arrWF : List Value → Bool
  | [] => true
  | v :: rest => Value.wfB v && arrWF rest
termination_by vs => sizeOf vs
end

/-- Read the value at a nested key path (attribute chains like
`settings.compute.arch`), descending through containers only. -/
def Value.getPath : Value → List String → Option Value
  | v, [] => some v
  | .obj es, k :: rest =>
    match findEntry es k with
    | some v => Value.getPath v rest
    | none => none
  | _, _ :: _ => none

/-- Path read starting from a container's entry list. -/
def getPathE (es : Entries) (p : List String) : Option Value :=
  Value.getPath (.obj es) p

/-- No strict prefix of the path `p` is bound to a non-container value:
descending from `v` along `p`, every value met before the end of the path
is either a container or absent. -/
def Value.interiorOk : Value → List String → Bool
  | _, [] => true
  | .obj es, k :: rest =>
    (match findEntry es k with
     | some v => Value.interiorOk v rest
     | none => true)
  | _, _ :: _ => false

theorem getPathE_nil (es : Entries) : getPathE es [] = some (.obj es) := rfl

theorem getPathE_cons (es : Entries) (k : String) (p : List String) :
    getPathE es (k :: p) =
      match findEntry es k with
      | some v => Value.getPath v p
      | none => none := rfl

theorem findEntry_replaceEntry_self (es : Entries) (k : String) (x : Value)
    (h : (findEntry es k).isSome) :
    findEntry (replaceEntry es k x) k = some x := by
  induction es with
  | nil => simp [findEntry] at h
  | cons e rest ih =>
    obtain ⟨k0, v0⟩ := e
    by_cases hk : k0 = k
    · subst hk; simp [findEntry, replaceEntry]
    · simp [findEntry, replaceEntry, hk] at h ⊢
      exact ih h

theorem findEntry_replaceEntry_ne (es : Entries) (k k' : String) (x : Value)
    (h : k' ≠ k) :
    findEntry (replaceEntry es k x) k' = findEntry es k' := by
  induction es with
  | nil => simp [replaceEntry]
  | cons e rest ih =>
    obtain ⟨k0, v0⟩ := e
    by_cases hk : k0 = k
    · subst hk
      have hne : ¬ (k0 = k') := fun hh => h (hh.symm.trans rfl)
      simp [findEntry, replaceEntry, hne]
    · by_cases hk' : k0 = k'
      · subst hk'; simp [findEntry, replaceEntry, hk]
      · simp [findEntry, replaceEntry, hk, hk', ih]

theorem keys_replaceEntry (es : Entries) (k : String) (x : Value) :
    (replaceEntry es k x).map Prod.fst = es.map Prod.fst := by
  induction es with
  | nil => simp [replaceEntry]
  | cons e rest ih =>
    obtain ⟨k0, v0⟩ := e
    by_cases hk : k0 = k <;> simp [replaceEntry, hk, ih]

theorem findEntry_append_some (a b : Entries) (k : String) (v : Value)
    (h : findEntry a k = some v) :
    findEntry (a ++ b) k = some v := by
  induction a with
  | nil => simp [findEntry] at h
  | cons e rest ih =>
    obtain ⟨k0, v0⟩ := e
    by_cases hk : k0 = k <;> simp_all [findEntry, hk]

theorem findEntry_append_none (a b : Entries) (k : String)
    (h : findEntry a k = none) :
    findEntry (a ++ b) k = findEntry b k := by
  induction a with
  | nil => simp [findEntry]
  | cons e rest ih =>
    obtain ⟨k0, v0⟩ := e
    by_cases hk : k0 = k <;> simp_all [findEntry, hk]

theorem all_ne_findEntry_none (es : Entries) (k : String)
    (h : es.all (fun p => p.1 != k) = true) :
    findEntry es k = none := by
  induction es with
  | nil => simp [findEntry]
  | cons e rest ih =>
    obtain ⟨k0, v0⟩ := e
    simp only [List.all_cons, Bool.and_eq_true, bne_iff_ne, ne_eq] at h
    simp [findEntry, h.1, ih (by simpa using h.2)]

theorem findEntry_none_iff (es : Entries) (k : String) :
    findEntry es k = none ↔ es.all (fun p => p.1 != k) = true := by
  constructor
  · intro h
    induction es with
    | nil => simp
    | cons e rest ih =>
      obtain ⟨k0, v0⟩ := e
      by_cases hk : k0 = k
      · simp [findEntry, hk] at h
      · simp only [findEntry, if_neg hk] at h
        simp [hk, ih h]
  · exact all_ne_findEntry_none es k

theorem entriesWF_cons (k : String) (v : Value) (rest : Entries) :
    entriesWF ((k, v) :: rest) =
      (rest.all (fun p => p.1 != k) && Value.wfB v && entriesWF rest) := by
  simp [entriesWF]

theorem findEntry_wf (es : Entries) (k : String) (v : Value)
    (hwf : entriesWF es = true) (h : findEntry es k = some v) :
    v.wfB = true := by
  induction es with
  | nil => simp [findEntry] at h
  | cons e rest ih =>
    obtain ⟨k0, v0⟩ := e
    rw [entriesWF_cons] at hwf
    simp only [Bool.and_eq_true] at hwf
    by_cases hk : k0 = k
    · simp only [findEntry, if_pos hk] at h
      exact (Option.some.inj h) ▸ hwf.1.2
    · simp only [findEntry, if_neg hk] at h
      exact ih hwf.2 h

theorem all_fst_replaceEntry (es : Entries) (k : String) (x : Value)
    (k0 : String) :
    (replaceEntry es k x).all (fun p => p.1 != k0) =
      es.all (fun p => p.1 != k0) := by
  induction es with
  | nil => simp [replaceEntry]
  | cons e rest ih =>
    obtain ⟨k1, v1⟩ := e
    by_cases hk : k1 = k <;> simp [replaceEntry, hk, ih]

theorem entriesWF_replaceEntry (es : Entries) (k : String) (x : Value)
    (hwf : entriesWF es = true) (hx : x.wfB = true) :
    entriesWF (replaceEntry es k x) = true := by
  induction es with
  | nil => simpa [replaceEntry] using hwf
  | cons e rest ih =>
    obtain ⟨k0, v0⟩ := e
    rw [entriesWF_cons] at hwf
    simp only [Bool.and_eq_true] at hwf
    by_cases hk : k0 = k
    · rw [replaceEntry, if_pos hk, entriesWF_cons]
      simp [hwf.1.1, hx, hwf.2]
    · rw [replaceEntry, if_neg hk, entriesWF_cons,
        all_fst_replaceEntry rest k x k0]
      simp [hwf.1.1, hwf.1.2, ih hwf.2]

theorem entriesWF_append_singleton (es : Entries) (k : String) (v : Value)
    (hwf : entriesWF es = true) (hfresh : findEntry es k = none)
    (hv : v.wfB = true) :
    entriesWF (es ++ [(k, v)]) = true := by
  induction es with
  | nil => simp [entriesWF, hv]
  | cons e rest ih =>
    obtain ⟨k0, v0⟩ := e
    rw [entriesWF_cons] at hwf
    simp only [Bool.and_eq_true] at hwf
    by_cases hk : k0 = k
    · simp [findEntry, hk] at hfresh
    · simp only [findEntry, if_neg hk] at hfresh
      rw [List.cons_append, entriesWF_cons]
      have hne : (k != k0) = true := by
        simp only [bne_iff_ne, ne_eq]
        exact fun hh => hk hh.symm
      simp [hwf.1.1, hwf.1.2, ih hwf.2 hfresh, hne]

theorem findEntry_updateStep_ne (d : Entries) (k1 : String) (v1 : Value)
    (k : String) (h : k1 ≠ k) :
    findEntry (updateStep d k1 v1) k = findEntry d k := by
  unfold updateStep
  cases hd : findEntry d k1 with
  | some dv => exact findEntry_replaceEntry_ne d k1 k _ (fun hh => h hh.symm)
  | none =>
    cases hdk : findEntry d k with
    | some w => simp [findEntry_append_some _ _ _ _ hdk]
    | none => simp [findEntry_append_none _ _ _ hdk, findEntry, h]

theorem updateEntries_findEntry_fresh (u : Entries) (d : Entries) (k : String)
    (h : u.all (fun p => p.1 != k) = true) :
    findEntry (updateEntries d u) k = findEntry d k := by
  induction u generalizing d with
  | nil => simp [updateEntries_nil]
  | cons e rest ih =>
    obtain ⟨k1, v1⟩ := e
    simp only [List.all_cons, Bool.and_eq_true, bne_iff_ne, ne_eq] at h
    rw [updateEntries_cons, ih _ (by simpa using h.2),
      findEntry_updateStep_ne _ _ _ _ h.1]

theorem updateEntries_disjoint (u : Entries) (d : Entries)
    (hu : entriesWF u = true) (hd : ∀ q ∈ u, findEntry d q.1 = none) :
    updateEntries d u = d ++ u := by
  induction u generalizing d with
  | nil => simp [updateEntries_nil]
  | cons e rest ih =>
    obtain ⟨k, v⟩ := e
    rw [entriesWF_cons] at hu
    simp only [Bool.and_eq_true] at hu
    have hk : findEntry d k = none := hd (k, v) (List.mem_cons_self _ _)
    rw [updateEntries_cons]
    have hstep : updateStep d k v = d ++ [(k, v)] := by
      unfold updateStep; rw [hk]
    have hd' : ∀ q ∈ rest, findEntry (d ++ [(k, v)]) q.1 = none := by
      intro q hq
      rw [findEntry_append_none _ _ _ (hd q (List.mem_cons_of_mem _ hq))]
      have hqk : (q.1 != k) = true := List.all_eq_true.mp hu.1.1 q hq
      simp only [bne_iff_ne, ne_eq] at hqk
      simp [findEntry, Ne.symm hqk]
    rw [hstep, ih _ hu.2 hd']
    simp

theorem updateEntries_nil_left (u : Entries) (hu : entriesWF u = true) :
    updateEntries [] u = u := by
  simpa using updateEntries_disjoint u [] hu (by intro q _; simp [findEntry])

theorem getPath_nil (v : Value) : v.getPath [] = some v := by
  cases v <;> simp [Value.getPath]

theorem getPathE_cons_some (es : Entries) (k : String) (p : List String)
    (v : Value) (h : findEntry es k = some v) :
    getPathE es (k :: p) = v.getPath p := by
  rw [getPathE_cons, h]

theorem getPathE_cons_none (es : Entries) (k : String) (p : List String)
    (h : findEntry es k = none) :
    getPathE es (k :: p) = none := by
  rw [getPathE_cons, h]

theorem interiorOk_nil (v : Value) : v.interiorOk [] = true := by
  cases v <;> simp [Value.interiorOk]

theorem interiorOk_obj_cons (es : Entries) (k : String) (p : List String) :
    Value.interiorOk (.obj es) (k :: p) =
      match findEntry es k with
      | some v => v.interiorOk p
      | none => true := by
  simp [Value.interiorOk]

mutual
theorem updateValue_wf : ∀ (dv uv : Value), dv.wfB = true → uv.wfB = true →
    (updateValue dv uv).wfB = true
  | dv, .obj ues, hd, hu => by
    cases dv with
    | obj des =>
      rw [updateValue_obj]
      have h := updateEntries_wf ues des (by simpa [Value.wfB] using hu)
        (by simpa [Value.wfB] using hd)
      simpa [Value.wfB] using h
    | null => rw [updateValue_of_not_obj_d _ _ (by simp [Value.isObjB])]; exact hu
    | str s e => rw [updateValue_of_not_obj_d _ _ (by simp [Value.isObjB])]; exact hu
    | num n => rw [updateValue_of_not_obj_d _ _ (by simp [Value.isObjB])]; exact hu
    | bool b => rw [updateValue_of_not_obj_d _ _ (by simp [Value.isObjB])]; exact hu
    | arr l => rw [updateValue_of_not_obj_d _ _ (by simp [Value.isObjB])]; exact hu
    | computed f =>
      rw [updateValue_of_not_obj_d _ _ (by simp [Value.isObjB])]; exact hu
  | dv, .null, _, hu => by
    rw [updateValue_of_not_obj_u dv _ (by simp [Value.isObjB])]; exact hu
  | dv, .str s e, _, hu => by
    rw [updateValue_of_not_obj_u dv _ (by simp [Value.isObjB])]; exact hu
  | dv, .num n, _, hu => by
    rw [updateValue_of_not_obj_u dv _ (by simp [Value.isObjB])]; exact hu
  | dv, .bool b, _, hu => by
    rw [updateValue_of_not_obj_u dv _ (by simp [Value.isObjB])]; exact hu
  | dv, .arr l, _, hu => by
    rw [updateValue_of_not_obj_u dv _ (by simp [Value.isObjB])]; exact hu
  | dv, .computed f, _, hu => by
    rw [updateValue_of_not_obj_u dv _ (by simp [Value.isObjB])]; exact hu
termination_by _ uv => sizeOf uv

theorem updateEntries_wf : ∀ (u d : Entries), entriesWF u = true →
    entriesWF d = true → entriesWF (updateEntries d u) = true
  | [], d, _, hd => by simpa [updateEntries_nil] using hd
  | (k, v) :: rest, d, hu, hd => by
    rw [entriesWF_cons] at hu
    simp only [Bool.and_eq_true] at hu
    rw [updateEntries_cons]
    apply updateEntries_wf rest _ hu.2
    unfold updateStep
    cases hdk : findEntry d k with
    | some dv =>
      exact entriesWF_replaceEntry d k _ hd
        (updateValue_wf dv v (findEntry_wf d k dv hd hdk) hu.1.2)
    | none => exact entriesWF_append_singleton d k v hd hdk hu.1.2
termination_by u _ => sizeOf u
end

mutual
theorem update_leaf_value : ∀ (uv dv : Value) (p : List String) (v : Value),
    uv.wfB = true → uv.getPath p = some v →
    ∃ w, (updateValue dv uv).getPath p = some w ∧ (v.isObjB = false → w = v)
  | uv, dv, [], v, _, hp => by
    rw [getPath_nil] at hp
    cases Option.some.inj hp
    exact ⟨updateValue dv uv, getPath_nil _, fun hv =>
      updateValue_of_not_obj_u dv uv hv⟩
  | .obj ues, dv, k :: p', v, hwf, hp => by
    cases dv with
    | obj des =>
      rw [updateValue_obj]
      exact update_leaf_entries ues des (k :: p') v
        (by simpa [Value.wfB] using hwf) hp
    | null =>
      rw [updateValue_of_not_obj_d _ _ (by simp [Value.isObjB])]
      exact ⟨v, hp, fun _ => rfl⟩
    | str s e =>
      rw [updateValue_of_not_obj_d _ _ (by simp [Value.isObjB])]
      exact ⟨v, hp, fun _ => rfl⟩
    | num n =>
      rw [updateValue_of_not_obj_d _ _ (by simp [Value.isObjB])]
      exact ⟨v, hp, fun _ => rfl⟩
    | bool b =>
      rw [updateValue_of_not_obj_d _ _ (by simp [Value.isObjB])]
      exact ⟨v, hp, fun _ => rfl⟩
    | arr l =>
      rw [updateValue_of_not_obj_d _ _ (by simp [Value.isObjB])]
      exact ⟨v, hp, fun _ => rfl⟩
    | computed f =>
      rw [updateValue_of_not_obj_d _ _ (by simp [Value.isObjB])]
      exact ⟨v, hp, fun _ => rfl⟩
  | .null, _, _ :: _, _, _, hp => by simp [Value.getPath] at hp
  | .str s e, _, _ :: _, _, _, hp => by simp [Value.getPath] at hp
  | .num n, _, _ :: _, _, _, hp => by simp [Value.getPath] at hp
  | .bool b, _, _ :: _, _, _, hp => by simp [Value.getPath] at hp
  | .arr l, _, _ :: _, _, _, hp => by simp [Value.getPath] at hp
  | .computed f, _, _ :: _, _, _, hp => by simp [Value.getPath] at hp
termination_by uv _ _ _ => sizeOf uv

theorem update_leaf_entries : ∀ (u d : Entries) (p : List String) (v : Value),
    entriesWF u = true → getPathE u p = some v →
    ∃ w, getPathE (updateEntries d u) p = some w ∧ (v.isObjB = false → w = v)
  | [], d, [], v, _, hp => by
    rw [getPathE_nil] at hp
    obtain rfl : Value.obj [] = v := Option.some.inj hp
    exact ⟨.obj (updateEntries d []), getPathE_nil _, fun hv => by
      simp [Value.isObjB] at hv⟩
  | [], _, k :: p', v, _, hp => by
    rw [getPathE_cons_none _ _ _ (by simp [findEntry])] at hp
    exact absurd hp (by simp)
  | (k1, uv) :: rest, d, [], v, hwf, hp => by
    rw [getPathE_nil] at hp
    obtain rfl : Value.obj ((k1, uv) :: rest) = v := Option.some.inj hp
    exact ⟨.obj (updateEntries d ((k1, uv) :: rest)), getPathE_nil _, fun hv => by
      simp [Value.isObjB] at hv⟩
  | (k1, uv) :: rest, d, k :: p', v, hwf, hp => by
    rw [entriesWF_cons] at hwf
    simp only [Bool.and_eq_true] at hwf
    rw [updateEntries_cons]
    by_cases hk : k1 = k
    · subst hk
      rw [getPathE_cons_some _ _ _ uv (by simp [findEntry])] at hp
      have hfresh : findEntry (updateEntries (updateStep d k1 uv) rest) k1 =
          findEntry (updateStep d k1 uv) k1 :=
        updateEntries_findEntry_fresh rest _ k1 hwf.1.1
      cases hdk : findEntry d k1 with
      | some dv =>
        have hstep : findEntry (updateStep d k1 uv) k1 =
            some (updateValue dv uv) := by
          unfold updateStep
          rw [hdk]
          exact findEntry_replaceEntry_self d k1 _ (by simp [hdk])
        obtain ⟨w, hw, himp⟩ := update_leaf_value uv dv p' v hwf.1.2 hp
        refine ⟨w, ?_, himp⟩
        rw [getPathE_cons_some _ _ _ _ (hfresh.trans hstep)]
        exact hw
      | none =>
        have hstep : findEntry (updateStep d k1 uv) k1 = some uv := by
          unfold updateStep
          rw [hdk, findEntry_append_none _ _ _ hdk]
          simp [findEntry]
        refine ⟨v, ?_, fun _ => rfl⟩
        rw [getPathE_cons_some _ _ _ _ (hfresh.trans hstep)]
        exact hp
    · have hp' : getPathE rest (k :: p') = some v := by
        rw [getPathE_cons] at hp ⊢
        have hskip : findEntry ((k1, uv) :: rest) k = findEntry rest k := by
          simp [findEntry, hk]
        rwa [hskip] at hp
      exact update_leaf_entries rest (updateStep d k1 uv) (k :: p') v hwf.2 hp'
termination_by u _ _ _ => sizeOf u
end

theorem update_keeps_paths : ∀ (u d : Entries) (p : List String),
    entriesWF u = true → Value.interiorOk (.obj u) p = true →
    (getPathE d p).isSome = true → (getPathE (updateEntries d u) p).isSome = true
  | [], d, p, _, _, hp => by simpa [updateEntries_nil] using hp
  | (k1, cv) :: rest, d, [], _, _, _ => by
    rw [updateEntries_cons, getPathE_nil]
    simp
  | (k1, cv) :: rest, d, k :: p', hwfu, hclear, hp => by
    rw [entriesWF_cons] at hwfu
    simp only [Bool.and_eq_true] at hwfu
    rw [updateEntries_cons]
    cases hfd : findEntry d k with
    | none => rw [getPathE_cons_none _ _ _ hfd] at hp; simp at hp
    | some w =>
      rw [getPathE_cons_some _ _ _ _ hfd] at hp
      by_cases hk : k1 = k
      · subst hk
        have hstep : findEntry (updateStep d k1 cv) k1 =
            some (updateValue w cv) := by
          unfold updateStep
          rw [hfd]
          exact findEntry_replaceEntry_self d k1 _ (by simp [hfd])
        have hclear' : Value.interiorOk (.obj rest) (k1 :: p') = true := by
          have hnone : findEntry rest k1 = none :=
            all_ne_findEntry_none rest k1 hwfu.1.1
          rw [interiorOk_obj_cons, hnone]
        have hcv : findEntry ((k1, cv) :: rest) k1 = some cv := by
          simp [findEntry]
        have hclearcv : cv.interiorOk p' = true ∨ p' = [] := by
          cases p' with
          | nil => exact Or.inr rfl
          | cons x p'' =>
            rw [interiorOk_obj_cons, hcv] at hclear
            exact Or.inl hclear
        have hmid : ((updateValue w cv).getPath p').isSome = true := by
          cases p' with
          | nil => rw [getPath_nil]; simp
          | cons x p'' =>
            have hclearcv' : cv.interiorOk (x :: p'') = true := by
              rcases hclearcv with h | h
              · exact h
              · exact absurd h (by simp)
            cases w with
            | obj wes =>
              cases cv with
              | obj ces =>
                rw [updateValue_obj]
                exact update_keeps_paths ces wes (x :: p'')
                  (by simpa [Value.wfB] using hwfu.1.2) hclearcv' hp
              | null => simp [Value.interiorOk] at hclearcv'
              | str s e => simp [Value.interiorOk] at hclearcv'
              | num n => simp [Value.interiorOk] at hclearcv'
              | bool b => simp [Value.interiorOk] at hclearcv'
              | arr l => simp [Value.interiorOk] at hclearcv'
              | computed f => simp [Value.interiorOk] at hclearcv'
            | null => simp [Value.getPath] at hp
            | str s e => simp [Value.getPath] at hp
            | num n => simp [Value.getPath] at hp
            | bool b => simp [Value.getPath] at hp
            | arr l => simp [Value.getPath] at hp
            | computed f => simp [Value.getPath] at hp
        have hp' : (getPathE (updateStep d k1 cv) (k1 :: p')).isSome = true := by
          rw [getPathE_cons_some _ _ _ _ hstep]
          exact hmid
        exact update_keeps_paths rest (updateStep d k1 cv) (k1 :: p')
          hwfu.2 hclear' hp'
      · have hclear' : Value.interiorOk (.obj rest) (k :: p') = true := by
          rw [interiorOk_obj_cons] at hclear ⊢
          have hskip : findEntry ((k1, cv) :: rest) k = findEntry rest k := by
            simp [findEntry, hk]
          rwa [hskip] at hclear
        have hp' : (getPathE (updateStep d k1 cv) (k :: p')).isSome = true := by
          rw [getPathE_cons_some _ _ _ _
            ((findEntry_updateStep_ne d k1 cv k hk).trans hfd)]
          exact hp
        exact update_keeps_paths rest (updateStep d k1 cv) (k :: p')
          hwfu.2 hclear' hp'
termination_by u _ _ => sizeOf u

mutual
/-- Python `==` on settings values, used by the containment test at leaves.
String comparison ignores the `ExpandedString` tag, as Python `str`
equality does. -/
def Value.beq : Value → Value → Bool
  | .null, .null => true
  | .str s _, .str t _ => s == t
  | .num a, .num b => a == b
  | .bool a, .bool b => a == b
  | .computed a, .computed b => a == b
  | .arr a, .arr b => beqList a b
  | .obj a, .obj b => beqEntries a b
  | _, _ => false
termination_by v _ => sizeOf v

/-- Elementwise `==` on arrays. -/
def beqList : List Value → List Value → Bool
  | [], [] => true
  | a :: as_, b :: bs => Value.beq a b && beqList as_ bs
  | _, _ => false
termination_by l _ => sizeOf l

/-- Order-sensitive entry equality for containers (containers reached only
through arrays here; template leaves are scalars in practice). -/
def beqEntries : Entries → Entries → Bool
  | [], [] => true
  | (k, v) :: r, (k', v') :: r' => k == k' && Value.beq v v' && beqEntries r r'
  | _, _ => false
termination_by es _ => sizeOf es
end

mutual
/-- `nested_in_dict(pattern, d)` on values: containers recurse into
containment, anything else compares with Python `==`.  Modelled from the
spec (the helper lives in the external `vsi` package): "every key/value
pair in pattern is already present (at any depth, value-equal)". -/
def nestedInDictV : Value → Value → Bool
  | .obj pes, .obj des => nestedInDictEntries pes des
  | pv, dv => Value.beq pv dv
termination_by pv _ => sizeOf pv

/-- `nested_in_dict` on entry lists: every pattern key must be present and
its value deeply contained. -/
def nestedInDictEntries : Entries → Entries → Bool
  | [], _ => true
  | (k, pv) :: rest, des =>
    (match findEntry des k with
     | some dv => nestedInDictV pv dv
     | none => false) && nestedInDictEntries rest des
termination_by pes _ => sizeOf pes
end

/-- `filename_suffixes` from `terra/core/settings.py`: key suffixes marking
path values eligible for home-directory expansion. -/
def filename_suffixes : List String :=
  ["_file", "_files", "_dir", "_dirs", "_path", "_paths"]

/-- `json_include_suffixes` from `terra/core/settings.py`: key suffixes
triggering JSON include replacement at load time. -/
def json_include_suffixes : List String := ["_json"]

/-- Python `str.endswith`, written over the character list so that it
evaluates inside the kernel. -/
def strEndsWith (s pat : String) : Bool :=
  s.data.drop (s.data.length - pat.data.length) == pat.data

/-- Does the key name end with one of the filename suffixes? -/
def hasFilenameSuffix (name : String) : Bool :=
  filename_suffixes.any (fun pat => strEndsWith name pat)

/-- Does the key name end with one of the JSON include suffixes? -/
def hasJsonSuffix (name : String) : Bool :=
  json_include_suffixes.any (fun pat => strEndsWith name pat)

/-- Result of one `Settings.__getattr__` read: the returned value (`none`
models the `AttributeError` raised on a missing key), the container state
after the read, the `settings_property` functions invoked (in order), and
how many times the expansion block ran. -/
structure ReadResult where
  value : Option Value
  state : Entries
  calls : List Nat
  expansions : Nat

/-- `Settings.__getattr__(name)`: look the key up with `self[name]`; if the
stored value is a `settings_property` function, call it with the settings
root and store the result back; if the (possibly fresh) value is a string
not yet tagged `ExpandedString`, apply `os.path.expandvars`, additionally
`os.path.expanduser` for filename-suffixed keys, tag it and store it back.
`env f` is the value the `settings_property` function `f` returns;
`expVars`/`expUser` are the abstract expansion functions.  The expansion
block is split out as `expandStep`. -/
def expandStep (expVars expUser : String → String) (name : String)
    (d1 : Entries) (cs : List Nat) (v1 : Value) : ReadResult :=
  match v1 with
  | .str s false =>
    let s1 := expVars s
    let s2 := if hasFilenameSuffix name then expUser s1 else s1
    ⟨some (.str s2 true), replaceEntry d1 name (.str s2 true), cs, 1⟩
  | _ => ⟨some v1, d1, cs, 0⟩

/-- `Settings.__getattr__(name)` proper: dictionary lookup, then the
`settings_property` evaluation-and-store, then the expansion block. -/
def settingsGetattr (env : Nat → Value) (expVars expUser : String → String)
    (d : Entries) (name : String) : ReadResult :=
  match findEntry d name with
  | none => ⟨none, d, [], 0⟩
  | some (.computed f) =>
    expandStep expVars expUser name (replaceEntry d name (env f)) [f] (env f)
  | some v0 => expandStep expVars expUser name d [] v0

/-- Accumulated effect of `n` successive attribute reads of the same key:
final container state, every `settings_property` invocation, every returned
value, and the total number of expansion-block runs. -/
structure RepeatResult where
  state : Entries
  calls : List Nat
  values : List (Option Value)
  expansions : Nat

/-- Read the same key `n` times through `Settings.__getattr__`, threading
the container state. -/
def settingsReadRepeat (env : Nat → Value) (expVars expUser : String → String)
    (d : Entries) (name : String) : Nat → RepeatResult
  | 0 => ⟨d, [], [], 0⟩
  | n + 1 =>
    let r := settingsGetattr env expVars expUser d name
    let rest := settingsReadRepeat env expVars expUser r.state name n
    ⟨rest.state, r.calls ++ rest.calls, r.value :: rest.values,
      r.expansions + rest.expansions⟩

/-- `LazyObject.__getitem__` (the wrapped object is a `Settings`, a `dict`
subclass that does not override `__getitem__`): a plain dictionary lookup
with no `settings_property` evaluation and no string expansion. -/
def lazyGetitem (d : Entries) (name : String) : Option Value :=
  findEntry d name

/-- `ObjectDict.__setattr__(name, value)`: `self.update([(name, value)])`,
a one-entry `nested_update`. -/
def settingsSetattr (d : Entries) (name : String) (v : Value) : Entries :=
  updateEntries d [(name, v)]

/-- The notifications published by the settings subsystem. -/
inductive SettingsEvent where
  | postSettingsConfigured
  | postSettingsContext
deriving DecidableEq, Repr

/-- Observable steps of a scope exit, in execution order. -/
inductive TraceStep where
  | cleared
  | restored (d : Entries)
  | published (e : SettingsEvent)

/-- Is this trace step a published notification? -/
def TraceStep.isPublished : TraceStep → Bool
  | .published _ => true
  | _ => false

/-- A `Settings` object together with its `_backup` scope stack.  `none`
models the `_backup` attribute not existing yet (no `__enter__` ever ran);
the stack holds the most recent deep clone first (Python appends to and
pops from the end of the list). -/
structure ScopedSettings where
  data : Entries
  backup : Option (List Entries)

/-- The errors a scope exit can raise: `AttributeError` when the `_backup`
attribute does not exist, `IndexError` when popping an empty stack. -/
inductive ExitError where
  | attributeError
  | indexError
deriving DecidableEq, Repr

/-- `Settings.__enter__`: append a deep copy of the current state to the
`_backup` list, creating the list if it does not exist yet.  Deep copying
is the identity on the pure model. -/
def settingsEnter (s : ScopedSettings) : ScopedSettings :=
  match s.backup with
  | some b => { s with backup := some (s.data :: b) }
  | none => { s with backup := some [s.data] }

/-- `Settings.__exit__`: `self.clear()` first, then `self._backup.pop()`,
then `self.update(backup)`.  The clear happens before the stack is
consulted, so a missing or empty stack raises only after the live container
has been emptied. -/
def settingsExit (s : ScopedSettings) :
    Option ExitError × ScopedSettings × List TraceStep :=
  match s.backup with
  | none => (some .attributeError, { s with data := [] }, [.cleared])
  | some [] => (some .indexError, { s with data := [] }, [.cleared])
  | some (b :: rest) =>
    let restored := updateEntries [] b
    (none, { data := restored, backup := some rest },
      [.cleared, .restored restored])

/-- `LazySettings.__exit__`: run the wrapped `Settings.__exit__`, then send
the `post_settings_context` signal.  If the wrapped exit raises, the
exception propagates before the signal is sent. -/
def lazySettingsExit (s : ScopedSettings) :
    Option ExitError × ScopedSettings × List TraceStep :=
  match settingsExit s with
  | (some e, s', tr) => (some e, s', tr)
  | (none, s', tr) =>
    (none, s', tr ++ [.published .postSettingsContext])

/-- A template: (pattern, defaults), both partial containers. -/
abbrev SettingsTemplate := Entries × Entries

/-- Identifier of the `status_file` `settings_property`. -/
def status_file_id : Nat := 0

/-- Identifier of the `processing_dir` `settings_property`. -/
def processing_dir_id : Nat := 1

/-- Identifier of the `unittest` `settings_property`. -/
def unittest_id : Nat := 2

/-- Identifier of the `need_to_set_virtualenv_dir` `settings_property`. -/
def need_virtualenv_dir_id : Nat := 3

/-- `global_templates` as initialized at import time in
`terra/core/settings.py` (three templates; `platform.node()` is the
`hostname` parameter, `DEFAULT_TCP_LOGGING_PORT` is 9020). -/
def global_templates (hostname : String) : List SettingsTemplate :=
  [ ( [],
      [ ("logging", .obj [
          ("level", .str "ERROR" false),
          ("format", .str "%(asctime)s (%(hostname)s:%(zone)s): %(levelname)s - %(filename)s - %(message)s" false),
          ("date_format", .null),
          ("style", .str "%" false),
          ("server", .obj [
            ("hostname", .str hostname false),
            ("port", .num 9020)])]),
        ("executor", .obj [
          ("type", .str "ThreadPoolExecutor" false),
          ("volume_map", .arr [])]),
        ("compute", .obj [
          ("arch", .str "terra.compute.dummy" false),
          ("volume_map", .arr [])]),
        ("terra", .obj [("zone", .str "controller" false)]),
        ("status_file", .computed status_file_id),
        ("processing_dir", .computed processing_dir_id),
        ("unittest", .computed unittest_id),
        ("resume", .bool false) ] ),
    ( [("compute", .obj [("arch", .str "terra.compute.virtualenv" false)])],
      [("compute", .obj [("virtualenv_dir", .computed need_virtualenv_dir_id)])] ),
    ( [("compute", .obj [("arch", .str "virtualenv" false)])],
      [("compute", .obj [("virtualenv_dir", .computed need_virtualenv_dir_id)])] ) ]

/-- Python `list.insert(-offset, t)`: a negative index counts from the end
and clamps at 0; `-0` is 0, so an offset of zero prepends. -/
def pyInsertNegOffset (offset : Nat) (t : α) (l : List α) : List α :=
  let idx := if offset = 0 then 0 else l.length - offset
  l.take idx ++ t :: l.drop idx

/-- `LazySettings.add_templates(templates)`: remember `offset =
len(global_templates)` and run `global_templates.insert(-offset, template)`
for each new template in order. -/
def add_templates (globalT : List SettingsTemplate)
    (templates : List SettingsTemplate) : List SettingsTemplate :=
  templates.foldl (fun acc t => pyInsertNegOffset globalT.length t acc) globalT

/-- Registry states reachable in the program: the import-time
`global_templates` for some hostname, extended by any number of
`add_templates` calls. -/
inductive RegistryReachable : List SettingsTemplate → Prop where
  | init (hostname : String) : RegistryReachable (global_templates hostname)
  | add {g : List SettingsTemplate} (ts : List SettingsTemplate) :
      RegistryReachable g → RegistryReachable (add_templates g ts)

/-- One iteration of the template loop in `LazySettings.configure`: if the
pattern is nested in the current container, build `d = {}`,
`nested_update(d, defaults)`, `nested_update(d, wrapped)`, then
`wrapped.update(d)`. -/
def applyTemplate (t : SettingsTemplate) (w : Entries) : Entries :=
  if nestedInDictEntries t.1 w then
    updateEntries w (updateEntries (updateEntries [] t.2) w)
  else w

/-- The template loop of `LazySettings.configure`, in registration order
over the current container state. -/
def applyTemplates (templates : List SettingsTemplate) (w : Entries) : Entries :=
  templates.foldl (fun w t => applyTemplate t w) w

/-- `read_json(json_file)` inside `LazySettings.configure`: evaluate the
file name first if it is a `settings_property`, open and parse the file
(`fileEnv` maps readable file names to parsed contents; `none` models a
raised `OSError`), and wrap the parsed contents in a `Settings`. -/
def read_json (env : Nat → Value) (fileEnv : String → Option Entries) :
    Value → Except String Value
  | .computed f =>
    (match env f with
     | .str s _ =>
       (match fileEnv s with
        | some es => .ok (.obj (updateEntries [] es))
        | none => .error s)
     | _ => .error "<include value is not a file name>")
  | .str s _ =>
    (match fileEnv s with
     | some es => .ok (.obj (updateEntries [] es))
     | none => .error s)
  | _ => .error "<include value is not a file name>"

mutual
/-- `nested_patch_inplace` on a value for the JSON-include patch: recurse
into containers; on failure the error propagates and the parts not yet
visited stay unpatched (in-place mutation).  Modelled from the spec (the
helper lives in the external `vsi` package). -/
def patchIncludesV (env : Nat → Value) (fileEnv : String → Option Entries) :
    Value → Option String × Value
  | .obj es =>
    (match patchIncludesE env fileEnv es with
     | (e, es') => (e, .obj es'))
  | v => (none, v)
termination_by v => sizeOf v

/-- `nested_patch_inplace` over an entry list: keys ending in a JSON
include suffix have their value replaced by the parsed file contents. -/
def patchIncludesE (env : Nat → Value) (fileEnv : String → Option Entries) :
    Entries → Option String × Entries
  | [] => (none, [])
  | (k, v) :: rest =>
    if hasJsonSuffix k then
      match read_json env fileEnv v with
      | .ok newV =>
        (match patchIncludesE env fileEnv rest with
         | (e, rest') => (e, (k, newV) :: rest'))
      | .error fname => (some fname, (k, v) :: rest)
    else
      match patchIncludesV env fileEnv v with
      | (some e, v') => (some e, (k, v') :: rest)
      | (none, v') =>
        (match patchIncludesE env fileEnv rest with
         | (e, rest') => (e, (k, v') :: rest'))
termination_by es => sizeOf es
end

/-- The errors `LazySettings.configure` can raise in the model:
`ImproperlyConfigured('Settings already configured.')`, or an error raised
while resolving a JSON include partway through. -/
inductive ConfigureError where
  | alreadyConfigured
  | includeError (fname : String)
deriving DecidableEq, Repr

/-- The `LazySettings` wrapper: `wrapped = none` models `_wrapped is None`
(unconfigured). -/
structure LazySettingsState where
  wrapped : Option Entries

/-- `LazySettings.configured`: is `_wrapped` set? -/
def LazySettingsState.configured (s : LazySettingsState) : Bool :=
  s.wrapped.isSome

/-- `LazySettings.configure(*args)`: raise if already configured; otherwise
install `self._wrapped = Settings(*args)` FIRST, then run the template
loop, then resolve JSON includes in place, then send
`post_settings_configured`.  An include failure propagates after `_wrapped`
has already been installed. -/
def configure (templates : List SettingsTemplate) (env : Nat → Value)
    (fileEnv : String → Option Entries) (st : LazySettingsState)
    (initial : Entries) :
    Option ConfigureError × LazySettingsState × List SettingsEvent :=
  match st.wrapped with
  | some _ => (some .alreadyConfigured, st, [])
  | none =>
    let w0 := updateEntries [] initial
    let w1 := applyTemplates templates w0
    match patchIncludesE env fileEnv w1 with
    | (some fname, wPartial) =>
      (some (.includeError fname), { wrapped := some wPartial }, [])
    | (none, w2) =>
      (none, { wrapped := some w2 }, [.postSettingsConfigured])

/-- A receiver reference held by a `Signal`: strong, or a weak reference to
the receiver identified by its id. -/
inductive Ref where
  | strong : Nat → Ref
  | weak : Nat → Ref
deriving DecidableEq, Repr

/-- The receiver part of a lookup key: an explicit `dispatch_uid`, or
`_make_id(receiver)`.  User-chosen uids and object ids are modelled as
disjoint spaces. -/
inductive RPart where
  | uid : Nat → RPart
  | rid : Nat → RPart
deriving DecidableEq, Repr

/-- `_make_id` for an optional object: `_make_id(None)` is the fixed
`NONE_ID` (0 here), actual objects map injectively above it. -/
def objId : Option Nat → Nat
  | none => 0
  | some x => x + 1

/-- A lookup key: (receiver part, sender id). -/
abbrev DispatchKey := RPart × Nat

/-- What the per-sender cache records for a sender: the `NO_RECEIVERS`
marker or the resolved (still wrapped) receiver list. -/
inductive CacheVal where
  | noReceivers
  | cached : List Ref → CacheVal
deriving DecidableEq, Repr

/-- The state of one `Signal`: the ordered receiver list, the
`use_caching` flag, the per-sender cache (keyed by sender id) and the
`_dead_receivers` flag. -/
structure SignalState where
  receivers : List (DispatchKey × Ref)
  useCaching : Bool
  senderReceiversCache : List (Nat × CacheVal)
  deadReceivers : Bool
deriving DecidableEq, Repr

/-- `Signal.__init__`. -/
def signalInit (useCaching : Bool) : SignalState :=
  { receivers := [], useCaching := useCaching,
    senderReceiversCache := [], deadReceivers := false }

/-- `Signal._clear_dead_receivers`: if the dead flag is set, reset it and
drop weak entries whose referent was collected (`alive r = false`). -/
def clearDeadReceivers (alive : Nat → Bool) (sig : SignalState) : SignalState :=
  if sig.deadReceivers then
    { sig with
      deadReceivers := false
      receivers := sig.receivers.filter (fun p =>
        match p.2 with
        | .weak r => alive r
        | .strong _ => true) }
  else sig

/-- The lookup key `connect` and `disconnect` derive: `(dispatch_uid,
_make_id(sender))` when a uid is given, else `(_make_id(receiver),
_make_id(sender))`. -/
def lookupKeyOf (receiver : Option Nat) (sender : Option Nat)
    (dispatch_uid : Option Nat) : DispatchKey :=
  match dispatch_uid with
  | some u => (.uid u, objId sender)
  | none => (.rid (objId receiver), objId sender)

/-- The guarded append inside `Signal.connect` (under the lock, after
clearing dead receivers): append only if no entry has the key, and clear
the per-sender cache. -/
def addReceiver (key : DispatchKey) (ref : Ref) (sig : SignalState) :
    SignalState :=
  { sig with
    receivers :=
      if sig.receivers.any (fun p => p.1 = key) then sig.receivers
      else sig.receivers ++ [(key, ref)]
    senderReceiversCache := [] }

/-- `Signal.connect(receiver, sender, weak, dispatch_uid)`: compute the
lookup key, clear dead receivers, append the entry only if no entry has
that key, and clear the per-sender cache. -/
def connect (alive : Nat → Bool) (sig : SignalState) (receiver : Nat)
    (sender : Option Nat) (weak : Bool) (dispatch_uid : Option Nat) :
    SignalState :=
  addReceiver (lookupKeyOf (some receiver) sender dispatch_uid)
    (if weak then Ref.weak receiver else Ref.strong receiver)
    (clearDeadReceivers alive sig)

/-- Delete the first entry carrying the given key; report whether one was
deleted. -/
def removeFirstKey (key : DispatchKey) :
    List (DispatchKey × Ref) → Bool × List (DispatchKey × Ref)
  | [] => (false, [])
  | e :: rest =>
    if e.1 = key then (true, rest)
    else
      match removeFirstKey key rest with
      | (b, r) => (b, e :: r)

/-- `Signal.disconnect(receiver, sender, dispatch_uid)`: same key
derivation as `connect`, remove the first matching entry, clear the cache,
return whether anything was removed. -/
def disconnect (alive : Nat → Bool) (sig : SignalState)
    (receiver sender dispatch_uid : Option Nat) : Bool × SignalState :=
  let sig1 := clearDeadReceivers alive sig
  match removeFirstKey (lookupKeyOf receiver sender dispatch_uid) sig1.receivers with
  | (b, rs) => (b, { sig1 with receivers := rs, senderReceiversCache := [] })

/-- Read the per-sender cache. -/
def cacheGet (cache : List (Nat × CacheVal)) (sk : Nat) : Option CacheVal :=
  (cache.find? (fun p => p.1 = sk)).map Prod.snd

/-- Store into the per-sender cache. -/
def cachePut (cache : List (Nat × CacheVal)) (sk : Nat) (v : CacheVal) :
    List (Nat × CacheVal) :=
  match cache.find? (fun p => p.1 = sk) with
  | some _ => cache.map (fun p => if p.1 = sk then (sk, v) else p)
  | none => cache ++ [(sk, v)]

/-- Dereference the resolved receiver refs, dropping dead weak ones. -/
def derefReceivers (alive : Nat → Bool) : List Ref → List Nat
  | [] => []
  | .strong r :: rest => r :: derefReceivers alive rest
  | .weak r :: rest =>
    if alive r then r :: derefReceivers alive rest
    else derefReceivers alive rest

/-- `Signal._live_receivers(sender)`: consult the cache when allowed,
otherwise clear dead receivers, filter entries whose sender key is
`NONE_ID` or the sender's id, populate the cache if caching is on, and
dereference the surviving refs. -/
def liveReceivers (alive : Nat → Bool) (sig : SignalState)
    (sender : Option Nat) : List Nat × SignalState :=
  let cached : Option CacheVal :=
    if sig.useCaching && !sig.deadReceivers then
      cacheGet sig.senderReceiversCache (objId sender)
    else none
  match cached with
  | some .noReceivers => ([], sig)
  | some (.cached refs) => (derefReceivers alive refs, sig)
  | none =>
    let sig1 := clearDeadReceivers alive sig
    let senderkey := objId sender
    let refs := (sig1.receivers.filter (fun p =>
      p.1.2 = objId none ∨ p.1.2 = senderkey)).map Prod.snd
    let sig2 :=
      if sig1.useCaching then
        { sig1 with
          senderReceiversCache :=
            cachePut sig1.senderReceiversCache senderkey
              (if refs.isEmpty then .noReceivers else .cached refs) }
      else sig1
    (derefReceivers alive refs, sig2)

/-- The dispatch loop of `Signal.send`: invoke each receiver in order; the
first raised error aborts the loop and propagates, so receivers after it
are not invoked.  Returns the result and the list of receivers actually
invoked.  `behavior r` is receiver `r`'s response or raised error. -/
def runReceivers (behavior : Nat → Except ε α) :
    List Nat → Except ε (List (Nat × α)) × List Nat
  | [] => (.ok [], [])
  | r :: rest =>
    match behavior r with
    | .error e => (.error e, [r])
    | .ok v =>
      match runReceivers behavior rest with
      | (.ok l, inv) => (.ok ((r, v) :: l), r :: inv)
      | (.error e, inv) => (.error e, r :: inv)

/-- The dispatch loop of `Signal.send_robust`: invoke every receiver,
catching each error independently and recording it as that receiver's
result. -/
def runReceiversRobust (behavior : Nat → Except ε α) :
    List Nat → List (Nat × Except ε α) × List Nat
  | [] => ([], [])
  | r :: rest =>
    match runReceiversRobust behavior rest with
    | (res, inv) => ((r, behavior r) :: res, r :: inv)

/-- `Signal.send(sender, **named)`: fast-exit on no receivers at all, on a
cached `NO_RECEIVERS` marker for this sender, or when `TERRA_UNITTEST` is
"1"; otherwise resolve the live receivers and invoke them in order,
fail-fast. -/
def send (unittest : Bool) (alive : Nat → Bool) (behavior : Nat → Except ε α)
    (sig : SignalState) (sender : Option Nat) :
    Except ε (List (Nat × α)) × List Nat × SignalState :=
  if sig.receivers.isEmpty ∨
      cacheGet sig.senderReceiversCache (objId sender) = some .noReceivers ∨
      unittest then
    (.ok [], [], sig)
  else
    match liveReceivers alive sig sender with
    | (live, sig') =>
      match runReceivers behavior live with
      | (res, inv) => (res, inv, sig')

/-- `Signal.send_robust(sender, **named)`: same fast path as `send`, then
invoke every live receiver, recording raised errors as results. -/
def send_robust (unittest : Bool) (alive : Nat → Bool)
    (behavior : Nat → Except ε α) (sig : SignalState) (sender : Option Nat) :
    List (Nat × Except ε α) × List Nat × SignalState :=
  if sig.receivers.isEmpty ∨
      cacheGet sig.senderReceiversCache (objId sender) = some .noReceivers ∨
      unittest then
    ([], [], sig)
  else
    match liveReceivers alive sig sender with
    | (live, sig') =>
      match runReceiversRobust behavior live with
      | (res, inv) => (res, inv, sig')

/-- Signal states reachable in the program: freshly constructed, or the
result of `connect`, `disconnect`, a `_live_receivers` resolution (as run
by `send`, `send_robust` and `has_listeners`), or a garbage-collection
finalizer marking dead receivers (`Signal._remove_receiver`). -/
inductive SignalReachable : SignalState → Prop where
  | init (useCaching : Bool) : SignalReachable (signalInit useCaching)
  | connectStep {s : SignalState} (alive : Nat → Bool) (receiver : Nat)
      (sender : Option Nat) (weak : Bool) (dispatch_uid : Option Nat) :
      SignalReachable s →
      SignalReachable (connect alive s receiver sender weak dispatch_uid)
  | disconnectStep {s : SignalState} (alive : Nat → Bool)
      (receiver sender dispatch_uid : Option Nat) :
      SignalReachable s →
      SignalReachable (disconnect alive s receiver sender dispatch_uid).2
  | liveStep {s : SignalState} (alive : Nat → Bool) (sender : Option Nat) :
      SignalReachable s → SignalReachable (liveReceivers alive s sender).2
  | collected {s : SignalState} :
      SignalReachable s → SignalReachable { s with deadReceivers := true }

theorem pyInsertNegOffset_mid (g done : List SettingsTemplate)
    (t : SettingsTemplate) (hg : g ≠ []) :
    pyInsertNegOffset g.length t (done ++ g) = done ++ t :: g := by
  unfold pyInsertNegOffset
  have hlen : g.length ≠ 0 := fun h => hg (List.length_eq_zero.mp h)
  simp only [if_neg hlen, List.length_append]
  have hidx : done.length + g.length - g.length = done.length := by omega
  rw [hidx, List.take_left, List.drop_left]

theorem add_templates_aux (ts : List SettingsTemplate) :
    ∀ (done g : List SettingsTemplate), g ≠ [] →
    ts.foldl (fun acc t => pyInsertNegOffset g.length t acc) (done ++ g) =
      done ++ ts ++ g := by
  induction ts with
  | nil => intro done g _; simp
  | cons t ts' ih =>
    intro done g hg
    rw [List.foldl_cons, pyInsertNegOffset_mid g done t hg]
    have h2 : done ++ t :: g = (done ++ [t]) ++ g := by simp
    rw [h2, ih (done ++ [t]) g hg]
    simp

theorem registry_ne_nil (g : List SettingsTemplate)
    (h : RegistryReachable g) : g ≠ [] := by
  induction h with
  | init hostname => simp [global_templates]
  | add ts _ ihg =>
    rename_i g' _
    unfold add_templates
    have := add_templates_aux ts [] g' ihg
    simp only [List.nil_append] at this
    rw [this]
    simp [ihg]

/-- C8: for every list of new templates passed to `add_templates`,
afterwards the new templates appear in the registry before all templates
that were registered at the time of the call, in the order given, while the
pre-existing templates keep their relative order as a fixed trailing tail:
the resulting registry is exactly `templates ++ old registry`.  The
hypothesis restricts to registry states reachable in the program, which are
never empty (the import-time registry has three templates; Python
`insert(-0, t)` would instead prepend, reversing the new templates). -/
theorem terra_c8_add_templates_order (g ts : List SettingsTemplate)
    (h : RegistryReachable g) : add_templates g ts = ts ++ g := by
  unfold add_templates
  have ha := add_templates_aux ts [] g (registry_ne_nil g h)
  simpa using ha

/-- C8 witness: the import-time registry is reachable, and adding one
template puts it in front of the three import-time templates. -/
theorem terra_c8_add_templates_order_witness :
    RegistryReachable (global_templates "node") ∧
    add_templates (global_templates "node") [([], [("resume", Value.bool true)])] =
      [([], [("resume", Value.bool true)])] ++ global_templates "node" :=
  ⟨RegistryReachable.init "node",
    terra_c8_add_templates_order _ _ (RegistryReachable.init "node")⟩

/-- C1 counterexample: configuring an unconfigured wrapper with
`{"a_json": "missing.json"}` when that include file cannot be opened makes
`configure` fail partway through include resolution, yet afterwards the
wrapper IS configured (`configured` is true and the wrapped container is
present) — `self._wrapped` is installed before templates and includes are
processed, so the claimed rollback to the unconfigured state does not
happen. -/
theorem terra_c1_counterexample :
    (configure [] (fun _ => Value.null) (fun _ => none)
        { wrapped := none } [("a_json", Value.str "missing.json" false)]).1 =
      some (ConfigureError.includeError "missing.json") ∧
    (configure [] (fun _ => Value.null) (fun _ => none)
        { wrapped := none }
        [("a_json", Value.str "missing.json" false)]).2.1.configured = true := by
  constructor <;>
    (simp [configure, applyTemplates, updateEntries, findEntry, patchIncludesE,
      read_json, LazySettingsState.configured]; decide)

/-- C1 (amended): a failed `configure` does not roll back.  On an
unconfigured wrapper, `configure` installs `self._wrapped` before the
template loop and include resolution, so whether it succeeds or fails
partway the wrapper ends up configured (with the partially-processed
container).  Only calling `configure` on an already-configured wrapper
(`ImproperlyConfigured`) leaves the state unchanged — it is rejected before
anything is installed. -/
theorem terra_c1_configure_no_rollback (templates : List SettingsTemplate)
    (env : Nat → Value) (fileEnv : String → Option Entries)
    (initial w : Entries) :
    (configure templates env fileEnv { wrapped := none }
        initial).2.1.configured = true ∧
    configure templates env fileEnv { wrapped := some w } initial =
      (some .alreadyConfigured, { wrapped := some w }, []) := by
  constructor
  · unfold configure
    cases hpatch : patchIncludesE env fileEnv
        (applyTemplates templates (updateEntries [] initial)) with
    | mk e w2 =>
      cases e <;> simp [hpatch, LazySettingsState.configured]
  · rfl

/-- C2 counterexample: with the empty pattern (contained in every
container), defaults `{"a": {"b": "x"}}` and container `{"a": 1}`, the
pattern is deeply contained in the container and `a.b` is a leaf of the
defaults, yet after applying the template the leaf `a.b` is NOT present:
the user's scalar at `a` wholesale-replaces the defaults' nested container,
discarding the deeper default leaf. -/
theorem terra_c2_counterexample :
    nestedInDictEntries [] [("a", Value.num 1)] = true ∧
    getPathE [("a", Value.obj [("b", Value.str "x" false)])] ["a", "b"] =
      some (Value.str "x" false) ∧
    getPathE (applyTemplate
        ([], [("a", Value.obj [("b", Value.str "x" false)])])
        [("a", Value.num 1)]) ["a", "b"] = none := by
  refine ⟨by simp [nestedInDictEntries], rfl, ?_⟩
  simp [applyTemplate, nestedInDictEntries, updateEntries, updateValue,
    findEntry, replaceEntry, getPathE, Value.getPath]

/-- C2 (amended): for every template `(pattern, defaults)` and container
`C` (both well-formed, as Python dicts are) with `pattern` deeply contained
in `C`: after applying the template, (1) every non-container leaf that
existed in `C` keeps its original value — defaults never overwrite user-set
values, even for deeply nested partial overlaps — and (2) every leaf of
`defaults` whose path does not cross a non-container value of `C` (no
strict prefix of the path is bound to a scalar in `C`) is present
afterwards.  Default leaves lying below a scalar already set by the user
are discarded, which is what the counterexample exhibits. -/
theorem terra_c2_template_defaults (pattern defaults C : Entries)
    (hwC : entriesWF C = true) (hwD : entriesWF defaults = true)
    (hmatch : nestedInDictEntries pattern C = true) :
    (∀ p v, getPathE C p = some v → v.isObjB = false →
      getPathE (applyTemplate (pattern, defaults) C) p = some v) ∧
    (∀ p v, getPathE defaults p = some v → v.isObjB = false →
      Value.interiorOk (.obj C) p = true →
      (getPathE (applyTemplate (pattern, defaults) C) p).isSome = true) := by
  have happ : applyTemplate (pattern, defaults) C =
      updateEntries C (updateEntries (updateEntries [] defaults) C) := by
    unfold applyTemplate
    simp [hmatch]
  have hd0 : updateEntries [] defaults = defaults :=
    updateEntries_nil_left defaults hwD
  have hwm : entriesWF (updateEntries (updateEntries [] defaults) C) = true :=
    updateEntries_wf C (updateEntries [] defaults) hwC (by rw [hd0]; exact hwD)
  constructor
  · intro p v hp hleaf
    obtain ⟨w1, hw1, him1⟩ :=
      update_leaf_entries C (updateEntries [] defaults) p v hwC hp
    rw [him1 hleaf] at hw1
    obtain ⟨w2, hw2, him2⟩ :=
      update_leaf_entries (updateEntries (updateEntries [] defaults) C) C p v
        hwm hw1
    rw [him2 hleaf] at hw2
    rw [happ]
    exact hw2
  · intro p v hp hleaf hinter
    have hpD0 : getPathE (updateEntries [] defaults) p = some v := by
      rw [hd0]; exact hp
    have h1 : (getPathE (updateEntries (updateEntries [] defaults) C) p).isSome
        = true :=
      update_keeps_paths C (updateEntries [] defaults) p hwC hinter
        (by simp [hpD0])
    obtain ⟨v1, hv1⟩ := Option.isSome_iff_exists.mp h1
    obtain ⟨w2, hw2, _⟩ :=
      update_leaf_entries (updateEntries (updateEntries [] defaults) C) C p v1
        hwm hv1
    rw [happ]
    simp [hw2]

/-- C2 witness: the virtualenv template from `global_templates` applied to
a container whose `compute.arch` matches: hypotheses hold, the user's
pre-set leaves survive, and the default leaf paths not crossing user
scalars are present. -/
theorem terra_c2_template_defaults_witness :
    (entriesWF [("compute", Value.obj [("arch", Value.str "virtualenv" false),
        ("volume_map", Value.arr [])])] = true) ∧
    (entriesWF [("compute", Value.obj
        [("virtualenv_dir", Value.computed need_virtualenv_dir_id)])] = true) ∧
    (nestedInDictEntries [("compute", Value.obj
        [("arch", Value.str "virtualenv" false)])]
      [("compute", Value.obj [("arch", Value.str "virtualenv" false),
        ("volume_map", Value.arr [])])] = true) ∧
    (∀ p v, getPathE [("compute", Value.obj
          [("arch", Value.str "virtualenv" false),
           ("volume_map", Value.arr [])])] p = some v →
      v.isObjB = false →
      getPathE (applyTemplate
        ([("compute", Value.obj [("arch", Value.str "virtualenv" false)])],
         [("compute", Value.obj
            [("virtualenv_dir", Value.computed need_virtualenv_dir_id)])])
        [("compute", Value.obj [("arch", Value.str "virtualenv" false),
          ("volume_map", Value.arr [])])]) p = some v) := by
  have hwC : entriesWF [("compute", Value.obj
      [("arch", Value.str "virtualenv" false),
       ("volume_map", Value.arr [])])] = true := by
    simp [entriesWF, Value.wfB, arrWF]
  have hwD : entriesWF [("compute", Value.obj
      [("virtualenv_dir", Value.computed need_virtualenv_dir_id)])] = true := by
    simp [entriesWF, Value.wfB]
  have hmatch : nestedInDictEntries [("compute", Value.obj
      [("arch", Value.str "virtualenv" false)])]
      [("compute", Value.obj [("arch", Value.str "virtualenv" false),
        ("volume_map", Value.arr [])])] = true := by
    simp [nestedInDictEntries, nestedInDictV, findEntry, Value.beq]
  exact ⟨hwC, hwD, hmatch,
    (terra_c2_template_defaults _ _ _ hwC hwD hmatch).1⟩

/-- Is this value a string not yet tagged `ExpandedString`? -/
def Value.isRawStringB : Value → Bool
  | .str _ false => true
  | _ => false

theorem getattr_stable_read (env : Nat → Value) (ev eu : String → String)
    (d : Entries) (k : String) (v : Value)
    (hv : findEntry d k = some v) (h1 : v.isComputedB = false)
    (h2 : v.isRawStringB = false) :
    settingsGetattr env ev eu d k = ⟨some v, d, [], 0⟩ := by
  unfold settingsGetattr
  rw [hv]
  cases v with
  | str s e =>
    cases e with
    | false => simp [Value.isRawStringB] at h2
    | true => rfl
  | computed f => simp [Value.isComputedB] at h1
  | null => rfl
  | num n => rfl
  | bool b => rfl
  | arr l => rfl
  | obj es => rfl

theorem readRepeat_stable (env : Nat → Value) (ev eu : String → String)
    (d : Entries) (k : String) (w : Option Value)
    (hstable : settingsGetattr env ev eu d k = ⟨w, d, [], 0⟩) :
    ∀ n, settingsReadRepeat env ev eu d k n =
      ⟨d, [], List.replicate n w, 0⟩ := by
  intro n
  induction n with
  | zero => rfl
  | succ m ih =>
    unfold settingsReadRepeat
    rw [hstable]
    simp only []
    rw [ih]
    rfl

theorem settingsGetattr_computed (env : Nat → Value) (ev eu : String → String)
    (d : Entries) (k : String) (f : Nat)
    (hk : findEntry d k = some (.computed f)) :
    settingsGetattr env ev eu d k =
      expandStep ev eu k (replaceEntry d k (env f)) [f] (env f) := by
  unfold settingsGetattr
  rw [hk]

theorem getattr_computed_first (env : Nat → Value) (ev eu : String → String)
    (d : Entries) (k : String) (f : Nat)
    (hk : findEntry d k = some (.computed f))
    (hres : (env f).isComputedB = false) :
    (settingsGetattr env ev eu d k).calls = [f] ∧
    (∃ w, (settingsGetattr env ev eu d k).value = some w ∧
      findEntry (settingsGetattr env ev eu d k).state k = some w ∧
      w.isComputedB = false ∧ w.isRawStringB = false) := by
  have hsome : (findEntry d k).isSome := by simp [hk]
  rw [settingsGetattr_computed env ev eu d k f hk]
  cases henv : env f with
  | str s e =>
    cases e with
    | false =>
      refine ⟨rfl, ⟨.str (if hasFilenameSuffix k then eu (ev s) else ev s) true,
        rfl, ?_, rfl, rfl⟩⟩
      show findEntry (replaceEntry (replaceEntry d k (.str s false)) k
          (.str (if hasFilenameSuffix k then eu (ev s) else ev s) true)) k =
        some (.str (if hasFilenameSuffix k then eu (ev s) else ev s) true)
      apply findEntry_replaceEntry_self
      rw [findEntry_replaceEntry_self d k _ hsome]
      rfl
    | true =>
      refine ⟨rfl, ⟨.str s true, rfl, ?_, rfl, rfl⟩⟩
      show findEntry (replaceEntry d k (.str s true)) k = some (.str s true)
      exact findEntry_replaceEntry_self d k _ hsome
  | computed g => rw [henv] at hres; simp [Value.isComputedB] at hres
  | null =>
    refine ⟨rfl, ⟨.null, rfl, ?_, rfl, rfl⟩⟩
    show findEntry (replaceEntry d k .null) k = some .null
    exact findEntry_replaceEntry_self d k _ hsome
  | num n =>
    refine ⟨rfl, ⟨.num n, rfl, ?_, rfl, rfl⟩⟩
    show findEntry (replaceEntry d k (.num n)) k = some (.num n)
    exact findEntry_replaceEntry_self d k _ hsome
  | bool b =>
    refine ⟨rfl, ⟨.bool b, rfl, ?_, rfl, rfl⟩⟩
    show findEntry (replaceEntry d k (.bool b)) k = some (.bool b)
    exact findEntry_replaceEntry_self d k _ hsome
  | arr l =>
    refine ⟨rfl, ⟨.arr l, rfl, ?_, rfl, rfl⟩⟩
    show findEntry (replaceEntry d k (.arr l)) k = some (.arr l)
    exact findEntry_replaceEntry_self d k _ hsome
  | obj es =>
    refine ⟨rfl, ⟨.obj es, rfl, ?_, rfl, rfl⟩⟩
    show findEntry (replaceEntry d k (.obj es)) k = some (.obj es)
    exact findEntry_replaceEntry_self d k _ hsome

/-- C3 counterexample: key `k` bound to settings_property 0 whose call
returns settings_property 1 (a function returning another
`settings_property` function).  The first read returns and caches the
function object; the second read invokes it (`calls` across two reads is
`[0, 1]`, not `[0]`) and returns its result, which differs from the first
read's returned value — so a subsequent read neither returns the identical
cached result nor avoids invoking a stored `settings_property`. -/
theorem terra_c3_counterexample :
    (settingsReadRepeat (fun n => if n = 0 then Value.computed 1 else Value.num 5)
        id id [("k", Value.computed 0)] "k" 2).values =
      [some (Value.computed 1), some (Value.num 5)] ∧
    (settingsReadRepeat (fun n => if n = 0 then Value.computed 1 else Value.num 5)
        id id [("k", Value.computed 0)] "k" 2).calls = [0, 1] :=
  ⟨rfl, rfl⟩

/-- C3 (amended): for every key bound to a `settings_property` function
whose evaluation result is not itself a `settings_property` function: the
function is invoked exactly once on the first read (`calls = [f]`), the
result is stored back at the key replacing the function, and across any
number of subsequent reads no further function is invoked, every read
returns the identical cached result, and the container state no longer
changes.  (If the result IS another `settings_property` function, the next
read evaluates the newly stored function — see the counterexample.) -/
theorem terra_c3_computed_once (env : Nat → Value) (ev eu : String → String)
    (d : Entries) (k : String) (f : Nat)
    (hk : findEntry d k = some (.computed f))
    (hres : (env f).isComputedB = false) :
    (settingsGetattr env ev eu d k).calls = [f] ∧
    (∃ w, (settingsGetattr env ev eu d k).value = some w ∧
      findEntry (settingsGetattr env ev eu d k).state k = some w ∧
      w.isComputedB = false) ∧
    (∀ n, (settingsReadRepeat env ev eu d k (n + 1)).calls = [f] ∧
      (settingsReadRepeat env ev eu d k (n + 1)).values =
        List.replicate (n + 1) (settingsGetattr env ev eu d k).value ∧
      (settingsReadRepeat env ev eu d k (n + 1)).state =
        (settingsGetattr env ev eu d k).state) := by
  obtain ⟨hc, w, hv, hs, hnc, hnr⟩ := getattr_computed_first env ev eu d k f hk hres
  have hstable := getattr_stable_read env ev eu
    (settingsGetattr env ev eu d k).state k w hs hnc hnr
  have hrep := readRepeat_stable env ev eu
    (settingsGetattr env ev eu d k).state k (some w) hstable
  refine ⟨hc, ⟨w, hv, hs, hnc⟩, fun n => ?_⟩
  show ((settingsReadRepeat env ev eu d k (n + 1)).calls = [f] ∧ _ ∧ _)
  have hsucc : settingsReadRepeat env ev eu d k (n + 1) =
      ⟨(settingsReadRepeat env ev eu (settingsGetattr env ev eu d k).state k n).state,
        (settingsGetattr env ev eu d k).calls ++
          (settingsReadRepeat env ev eu (settingsGetattr env ev eu d k).state k n).calls,
        (settingsGetattr env ev eu d k).value ::
          (settingsReadRepeat env ev eu (settingsGetattr env ev eu d k).state k n).values,
        (settingsGetattr env ev eu d k).expansions +
          (settingsReadRepeat env ev eu (settingsGetattr env ev eu d k).state k n).expansions⟩ :=
    rfl
  rw [hsucc, hrep n]
  refine ⟨by simp [hc], ?_, rfl⟩
  simp only []
  rw [hv, List.replicate_succ]

/-- C3 witness: a container whose `status` key holds settings_property 4
returning the plain number 7; across `n + 1` reads the function is invoked
exactly once. -/
theorem terra_c3_computed_once_witness :
    findEntry [("status", Value.computed 4)] "status" =
      some (Value.computed 4) ∧
    ((fun _ => Value.num 7) 4 : Value).isComputedB = false ∧
    ∀ n, (settingsReadRepeat (fun _ => Value.num 7) id id
      [("status", Value.computed 4)] "status" (n + 1)).calls = [4] :=
  ⟨rfl, rfl, fun n =>
    ((terra_c3_computed_once (fun _ => Value.num 7) id id
      [("status", Value.computed 4)] "status" 4 rfl rfl).2.2 n).1⟩

theorem settingsGetattr_plain (env : Nat → Value) (ev eu : String → String)
    (d : Entries) (k : String) (v0 : Value)
    (hk : findEntry d k = some v0) (hnc : v0.isComputedB = false) :
    settingsGetattr env ev eu d k = expandStep ev eu k d [] v0 := by
  unfold settingsGetattr
  rw [hk]
  cases v0 with
  | computed f => simp [Value.isComputedB] at hnc
  | null => rfl
  | str s e => rfl
  | num n => rfl
  | bool b => rfl
  | arr l => rfl
  | obj es => rfl

/-- C7: for every raw (not yet expanded) string value stored under a
path-suffixed key, the first attribute read applies environment-variable
expansion followed by home-directory expansion exactly once, stores the
result back tagged as `ExpandedString`, and across any number of further
reads the expansion block never runs again: every read returns the same
tagged string and the container state stays fixed. -/
theorem terra_c7_expand_once (env : Nat → Value) (ev eu : String → String)
    (d : Entries) (k : String) (s : String)
    (hk : findEntry d k = some (.str s false))
    (hsuffix : hasFilenameSuffix k = true) :
    (settingsGetattr env ev eu d k).value = some (.str (eu (ev s)) true) ∧
    (settingsGetattr env ev eu d k).expansions = 1 ∧
    findEntry (settingsGetattr env ev eu d k).state k =
      some (.str (eu (ev s)) true) ∧
    (∀ n, (settingsReadRepeat env ev eu d k (n + 1)).expansions = 1 ∧
      (settingsReadRepeat env ev eu d k (n + 1)).values =
        List.replicate (n + 1) (some (.str (eu (ev s)) true)) ∧
      (settingsReadRepeat env ev eu d k (n + 1)).state =
        (settingsGetattr env ev eu d k).state) := by
  have hsome : (findEntry d k).isSome := by simp [hk]
  have hr1 : settingsGetattr env ev eu d k =
      ⟨some (.str (eu (ev s)) true),
        replaceEntry d k (.str (eu (ev s)) true), [], 1⟩ := by
    rw [settingsGetattr_plain env ev eu d k _ hk rfl]
    unfold expandStep
    simp [hsuffix]
  have hs : findEntry (settingsGetattr env ev eu d k).state k =
      some (.str (eu (ev s)) true) := by
    rw [hr1]
    exact findEntry_replaceEntry_self d k _ hsome
  have hstable := getattr_stable_read env ev eu
    (settingsGetattr env ev eu d k).state k (.str (eu (ev s)) true) hs rfl rfl
  have hrep := readRepeat_stable env ev eu
    (settingsGetattr env ev eu d k).state k (some (.str (eu (ev s)) true))
    hstable
  refine ⟨by rw [hr1], by rw [hr1], hs, fun n => ?_⟩
  have hsucc : settingsReadRepeat env ev eu d k (n + 1) =
      ⟨(settingsReadRepeat env ev eu (settingsGetattr env ev eu d k).state k n).state,
        (settingsGetattr env ev eu d k).calls ++
          (settingsReadRepeat env ev eu (settingsGetattr env ev eu d k).state k n).calls,
        (settingsGetattr env ev eu d k).value ::
          (settingsReadRepeat env ev eu (settingsGetattr env ev eu d k).state k n).values,
        (settingsGetattr env ev eu d k).expansions +
          (settingsReadRepeat env ev eu (settingsGetattr env ev eu d k).state k n).expansions⟩ :=
    rfl
  rw [hsucc, hrep n]
  refine ⟨by simp [hr1], ?_, rfl⟩
  simp only []
  rw [hr1, List.replicate_succ]

/-- C7 witness: key `data_dir` carries the filename suffix `_dir`; the raw
string `$HOME/data` is expanded once across `n + 1` reads (with identity
expansion functions, for concreteness). -/
theorem terra_c7_expand_once_witness :
    findEntry [("data_dir", Value.str "$HOME/data" false)] "data_dir" =
      some (Value.str "$HOME/data" false) ∧
    hasFilenameSuffix "data_dir" = true ∧
    ∀ n, (settingsReadRepeat (fun _ => Value.null) id id
      [("data_dir", Value.str "$HOME/data" false)] "data_dir" (n + 1)).expansions
      = 1 :=
  ⟨rfl, rfl, fun n =>
    ((terra_c7_expand_once (fun _ => Value.null) id id
      [("data_dir", Value.str "$HOME/data" false)] "data_dir" "$HOME/data"
      rfl rfl).2.2.2 n).1⟩

/-- C9: item access (`container[key]`, and `wrapper[key]`, which delegates
to the wrapped dict) bypasses the computed-value layer: a stored
`settings_property` function comes back raw — not invoked, not cached — and
a raw string comes back unexpanded; only attribute access
(`Settings.__getattr__`) invokes the function and expands the string. -/
theorem terra_c9_getitem_bypasses (env : Nat → Value) (ev eu : String → String)
    (d : Entries) (k : String) :
    (∀ f, findEntry d k = some (.computed f) →
      lazyGetitem d k = some (.computed f) ∧
      (settingsGetattr env ev eu d k).calls = [f]) ∧
    (∀ s, findEntry d k = some (.str s false) →
      lazyGetitem d k = some (.str s false) ∧
      (settingsGetattr env ev eu d k).value =
        some (.str (if hasFilenameSuffix k then eu (ev s) else ev s) true)) := by
  constructor
  · intro f hf
    refine ⟨hf, ?_⟩
    rw [settingsGetattr_computed env ev eu d k f hf]
    cases henv : env f with
    | str s e => cases e <;> rfl
    | null => rfl
    | num n => rfl
    | bool b => rfl
    | arr l => rfl
    | obj es => rfl
    | computed g => rfl
  · intro s hs
    refine ⟨hs, ?_⟩
    rw [settingsGetattr_plain env ev eu d k _ hs rfl]
    rfl

/-- C9 witness: a stored settings_property comes back raw through item
access while attribute access invokes it, and a raw string comes back
unexpanded through item access while attribute access returns it tagged. -/
theorem terra_c9_getitem_bypasses_witness :
    (lazyGetitem [("w", Value.computed 9)] "w" = some (Value.computed 9) ∧
      (settingsGetattr (fun _ => Value.num 0) id id
        [("w", Value.computed 9)] "w").calls = [9]) ∧
    (lazyGetitem [("log_file", Value.str "$HOME/log" false)] "log_file" =
        some (Value.str "$HOME/log" false) ∧
      (settingsGetattr (fun _ => Value.num 0) id id
        [("log_file", Value.str "$HOME/log" false)] "log_file").value =
        some (Value.str "$HOME/log" true)) :=
  ⟨(terra_c9_getitem_bypasses (fun _ => Value.num 0) id id
      [("w", Value.computed 9)] "w").1 9 rfl,
    (terra_c9_getitem_bypasses (fun _ => Value.num 0) id id
      [("log_file", Value.str "$HOME/log" false)] "log_file").2 "$HOME/log" rfl⟩

/-- The scenario of claim C5: enter a scope on a configured container,
set one key to a new value, exit the scope through the lazy wrapper. -/
def scopeMutateRound (s : ScopedSettings) (k : String) (v : Value) :
    Option ExitError × ScopedSettings × List TraceStep :=
  let s1 := settingsEnter s
  let s2 := { s1 with data := settingsSetattr s1.data k v }
  lazySettingsExit s2

/-- C5: entering a scope, mutating a key and exiting restores the key to
its pre-scope value (in fact the whole container is restored from the
popped deep clone), no error is raised, and exactly one
`post_settings_context` ("scope exited") notification is published, after
the restoration step in the trace. -/
theorem terra_c5_scope_restores (s : ScopedSettings) (k : String) (v : Value)
    (hwf : entriesWF s.data = true) :
    (scopeMutateRound s k v).1 = none ∧
    (scopeMutateRound s k v).2.1.data = s.data ∧
    findEntry (scopeMutateRound s k v).2.1.data k = findEntry s.data k ∧
    (scopeMutateRound s k v).2.2 =
      [.cleared, .restored s.data, .published .postSettingsContext] ∧
    ((scopeMutateRound s k v).2.2.filter TraceStep.isPublished).length = 1 := by
  have hrestore : updateEntries [] s.data = s.data :=
    updateEntries_nil_left _ hwf
  have hround : scopeMutateRound s k v =
      (none, { data := s.data, backup := some (s.backup.getD []) },
        [.cleared, .restored s.data, .published .postSettingsContext]) := by
    unfold scopeMutateRound settingsEnter lazySettingsExit settingsExit
    cases hb : s.backup with
    | none => simp [hb, hrestore]
    | some b => simp [hb, hrestore]
  rw [hround]
  exact ⟨rfl, rfl, rfl, rfl, rfl⟩

/-- C5 witness: a one-key container, no prior scopes; mutating `level`
inside the scope and exiting restores the original value and publishes the
scope-exited notification exactly once. -/
theorem terra_c5_scope_restores_witness :
    entriesWF [("level", Value.str "ERROR" false)] = true ∧
    (scopeMutateRound ⟨[("level", Value.str "ERROR" false)], none⟩
        "level" (Value.str "DEBUG" false)).2.1.data =
      [("level", Value.str "ERROR" false)] ∧
    ((scopeMutateRound ⟨[("level", Value.str "ERROR" false)], none⟩
        "level" (Value.str "DEBUG" false)).2.2.filter
        TraceStep.isPublished).length = 1 := by
  have hwf : entriesWF [("level", Value.str "ERROR" false)] = true := by
    simp [entriesWF, Value.wfB]
  have h := terra_c5_scope_restores ⟨[("level", Value.str "ERROR" false)], none⟩
    "level" (Value.str "DEBUG" false) hwf
  exact ⟨hwf, h.2.1, h.2.2.2.2⟩

/-- C10: calling `Settings.__exit__` when the scope stack is missing
(`_backup` never created) or empty raises (`AttributeError` resp.
`IndexError`), but `self.clear()` has already run: after the failed exit
the live container is empty rather than unchanged, and no notification is
published. -/
theorem terra_c10_exit_clears_first (s : ScopedSettings)
    (h : s.backup = none ∨ s.backup = some []) :
    (settingsExit s).1.isSome = true ∧
    (settingsExit s).2.1.data = [] ∧
    (settingsExit s).2.2 = [.cleared] := by
  rcases h with h | h <;> (unfold settingsExit; rw [h]) <;> exact ⟨rfl, rfl, rfl⟩

/-- C10 witness: a populated container with no `_backup` attribute; the
failed exit leaves it empty. -/
theorem terra_c10_exit_clears_first_witness :
    ((⟨[("a", Value.num 1)], none⟩ : ScopedSettings).backup = none ∨
      (⟨[("a", Value.num 1)], none⟩ : ScopedSettings).backup = some []) ∧
    (settingsExit ⟨[("a", Value.num 1)], none⟩).1.isSome = true ∧
    (settingsExit ⟨[("a", Value.num 1)], none⟩).2.1.data = [] :=
  ⟨Or.inl rfl,
    (terra_c10_exit_clears_first ⟨[("a", Value.num 1)], none⟩ (Or.inl rfl)).1,
    (terra_c10_exit_clears_first ⟨[("a", Value.num 1)], none⟩ (Or.inl rfl)).2.1⟩

theorem runReceivers_fail (behavior : Nat → Except ε α) (pre : List Nat)
    (bad : Nat) (post : List Nat) (e : ε)
    (hbad : behavior bad = .error e)
    (hpre : ∀ r ∈ pre, ∃ v, behavior r = .ok v) :
    runReceivers behavior (pre ++ bad :: post) = (.error e, pre ++ [bad]) := by
  induction pre with
  | nil => simp [runReceivers, hbad]
  | cons r rest ih =>
    obtain ⟨v, hv⟩ := hpre r (List.mem_cons_self _ _)
    have ih' := ih (fun r' hr' => hpre r' (List.mem_cons_of_mem _ hr'))
    simp [runReceivers, hv, ih']

theorem runReceiversRobust_eq (behavior : Nat → Except ε α) (L : List Nat) :
    runReceiversRobust behavior L = (L.map (fun r => (r, behavior r)), L) := by
  induction L with
  | nil => rfl
  | cons r rest ih => simp [runReceiversRobust, ih]

/-- C4: when the fast-exit conditions do not apply (there are receivers,
no cached `NO_RECEIVERS` marker for this sender, `TERRA_UNITTEST` unset)
and the resolved live receivers are `pre ++ bad :: post` where every
receiver in `pre` succeeds and `bad` raises: `send` invokes exactly
`pre ++ [bad]` in order and propagates the error — the receivers in `post`
are never invoked — while `send_robust` with the same receivers invokes
every one of them and returns each receiver paired with its response or
its raised error object. -/
theorem terra_c4_send_vs_send_robust (unittest : Bool) (alive : Nat → Bool)
    (behavior : Nat → Except ε α) (sig : SignalState) (sender : Option Nat)
    (pre post : List Nat) (bad : Nat) (e : ε)
    (hu : unittest = false)
    (hne : sig.receivers.isEmpty = false)
    (hc : cacheGet sig.senderReceiversCache (objId sender) ≠ some .noReceivers)
    (hlive : (liveReceivers alive sig sender).1 = pre ++ bad :: post)
    (hbad : behavior bad = .error e)
    (hpre : ∀ r ∈ pre, ∃ v, behavior r = .ok v) :
    (send unittest alive behavior sig sender).1 = .error e ∧
    (send unittest alive behavior sig sender).2.1 = pre ++ [bad] ∧
    (send_robust unittest alive behavior sig sender).1 =
      (pre ++ bad :: post).map (fun r => (r, behavior r)) ∧
    (send_robust unittest alive behavior sig sender).2.1 =
      pre ++ bad :: post := by
  have hcond : ¬(sig.receivers.isEmpty = true ∨
      cacheGet sig.senderReceiversCache (objId sender) = some .noReceivers ∨
      unittest = true) := by
    subst hu
    simp [hne, hc]
  have hrun := runReceivers_fail behavior pre bad post e hbad hpre
  have hrobust := runReceiversRobust_eq behavior (pre ++ bad :: post)
  cases hl : liveReceivers alive sig sender with
  | mk live sig' =>
    have hlive' : live = pre ++ bad :: post := by
      have := hlive
      rw [hl] at this
      exact this
    subst hlive'
    unfold send send_robust
    rw [if_neg hcond, if_neg hcond, hl]
    simp only [hrun, hrobust]
    exact ⟨trivial, trivial, trivial, trivial⟩

/-- C4 witness: three strong receivers for any sender; receiver 2 raises.
`send` invokes `[1, 2]` and propagates the error; `send_robust` invokes
all three and records the error as receiver 2's result. -/
theorem terra_c4_send_vs_send_robust_witness :
    ((send false (fun _ => true)
        (fun r => if r = 2 then .error "boom" else .ok r)
        { receivers := [((.rid 2, 0), .strong 1), ((.rid 3, 0), .strong 2),
            ((.rid 4, 0), .strong 3)]
          useCaching := false
          senderReceiversCache := []
          deadReceivers := false } none).1 =
      (.error "boom" : Except String (List (Nat × Nat)))) ∧
    (send false (fun _ => true)
        (fun r => if r = 2 then .error "boom" else .ok r)
        { receivers := [((.rid 2, 0), .strong 1), ((.rid 3, 0), .strong 2),
            ((.rid 4, 0), .strong 3)]
          useCaching := false
          senderReceiversCache := []
          deadReceivers := false } none).2.1 = [1, 2] ∧
    (send_robust false (fun _ => true)
        (fun r => if r = 2 then .error "boom" else .ok r)
        { receivers := [((.rid 2, 0), .strong 1), ((.rid 3, 0), .strong 2),
            ((.rid 4, 0), .strong 3)]
          useCaching := false
          senderReceiversCache := []
          deadReceivers := false } none).1 =
      [(1, .ok 1), (2, .error "boom"), (3, .ok 3)] := by
  have h := terra_c4_send_vs_send_robust false (fun _ => true)
    (fun r => if r = 2 then .error "boom" else .ok r)
    { receivers := [((.rid 2, 0), .strong 1), ((.rid 3, 0), .strong 2),
        ((.rid 4, 0), .strong 3)]
      useCaching := false
      senderReceiversCache := []
      deadReceivers := false } none [1] [3] 2 "boom"
    rfl rfl (by simp [cacheGet]) rfl rfl
    (by intro r hr; simp at hr; subst hr; exact ⟨1, rfl⟩)
  exact ⟨h.1, h.2.1, h.2.2.1⟩

theorem clearDeadReceivers_of_not_dead (alive : Nat → Bool) (sig : SignalState)
    (h : sig.deadReceivers = false) : clearDeadReceivers alive sig = sig := by
  unfold clearDeadReceivers
  rw [h]
  rfl

theorem clearDeadReceivers_flag (alive : Nat → Bool) (sig : SignalState) :
    (clearDeadReceivers alive sig).deadReceivers = false := by
  unfold clearDeadReceivers
  cases h : sig.deadReceivers with
  | true => rfl
  | false => simpa using h

theorem clearDeadReceivers_receivers_sublist (alive : Nat → Bool)
    (sig : SignalState) :
    (clearDeadReceivers alive sig).receivers.Sublist sig.receivers := by
  unfold clearDeadReceivers
  cases h : sig.deadReceivers with
  | true => exact List.filter_sublist _
  | false => exact List.Sublist.refl _

theorem addReceiver_deadFlag (key : DispatchKey) (ref : Ref)
    (sig : SignalState) :
    (addReceiver key ref sig).deadReceivers = sig.deadReceivers := rfl

theorem addReceiver_key_mem (key : DispatchKey) (ref : Ref)
    (sig : SignalState) :
    (addReceiver key ref sig).receivers.any (fun p => p.1 = key) = true := by
  unfold addReceiver
  cases h : sig.receivers.any (fun p => p.1 = key) with
  | true => simpa using h
  | false => simp

theorem addReceiver_idem (key : DispatchKey) (ref : Ref) (sig : SignalState) :
    addReceiver key ref (addReceiver key ref sig) = addReceiver key ref sig := by
  have hmem := addReceiver_key_mem key ref sig
  unfold addReceiver at hmem ⊢
  rw [hmem]
  simp

/-- Second part of C6, as a standalone fact: an identical repeated
`connect` is a state-level no-op. -/
theorem connect_idem (alive : Nat → Bool) (sig : SignalState) (receiver : Nat)
    (sender : Option Nat) (weak : Bool) (dispatch_uid : Option Nat) :
    connect alive (connect alive sig receiver sender weak dispatch_uid)
        receiver sender weak dispatch_uid =
      connect alive sig receiver sender weak dispatch_uid := by
  unfold connect
  rw [clearDeadReceivers_of_not_dead alive _ (by
    rw [addReceiver_deadFlag]
    exact clearDeadReceivers_flag alive sig)]
  exact addReceiver_idem _ _ _

theorem addReceiver_keys_nodup (key : DispatchKey) (ref : Ref)
    (sig : SignalState) (h : (sig.receivers.map Prod.fst).Nodup) :
    ((addReceiver key ref sig).receivers.map Prod.fst).Nodup := by
  unfold addReceiver
  cases hany : sig.receivers.any (fun p => p.1 = key) with
  | true => simpa using h
  | false =>
    have hnot : key ∉ sig.receivers.map Prod.fst := by
      intro hmem
      obtain ⟨p, hp, hpk⟩ := List.mem_map.mp hmem
      have : sig.receivers.any (fun p => p.1 = key) = true :=
        List.any_eq_true.mpr ⟨p, hp, by simp [hpk]⟩
      rw [hany] at this
      exact Bool.false_ne_true this
    simp only [hany, Bool.false_eq_true, if_false, List.map_append]
    rw [List.nodup_append]
    refine ⟨h, by simp, ?_⟩
    intro a ha hb
    simp only [List.map_cons, List.map_nil, List.mem_singleton] at hb
    subst hb
    exact hnot ha

theorem removeFirstKey_sublist (key : DispatchKey)
    (l : List (DispatchKey × Ref)) : (removeFirstKey key l).2.Sublist l := by
  induction l with
  | nil => exact List.Sublist.refl _
  | cons e rest ih =>
    unfold removeFirstKey
    by_cases h : e.1 = key
    · simp only [h, if_pos rfl]
      exact List.sublist_cons_self _ _
    · simp only [if_neg h]
      cases hr : removeFirstKey key rest with
      | mk b rs =>
        have := ih
        rw [hr] at this
        exact List.Sublist.cons₂ e this

theorem disconnect_receivers (alive : Nat → Bool) (sig : SignalState)
    (receiver sender dispatch_uid : Option Nat) :
    (disconnect alive sig receiver sender dispatch_uid).2.receivers =
      (removeFirstKey (lookupKeyOf receiver sender dispatch_uid)
        (clearDeadReceivers alive sig).receivers).2 := by
  unfold disconnect
  cases h : removeFirstKey (lookupKeyOf receiver sender dispatch_uid)
      (clearDeadReceivers alive sig).receivers with
  | mk b rs => simp [h]

theorem liveReceivers_receivers (alive : Nat → Bool) (sig : SignalState)
    (sender : Option Nat) :
    (liveReceivers alive sig sender).2.receivers =
      (clearDeadReceivers alive sig).receivers ∨
    (liveReceivers alive sig sender).2 = sig := by
  unfold liveReceivers
  cases hc : (if sig.useCaching && !sig.deadReceivers then
      cacheGet sig.senderReceiversCache (objId sender) else none) with
  | some val =>
    cases val with
    | noReceivers => exact Or.inr rfl
    | cached refs => exact Or.inr rfl
  | none =>
    cases hu : (clearDeadReceivers alive sig).useCaching with
    | true => simp [hu]
    | false => simp [hu]

theorem signal_reachable_keys_nodup (s : SignalState) (h : SignalReachable s) :
    (s.receivers.map Prod.fst).Nodup := by
  induction h with
  | init u => simp [signalInit]
  | connectStep alive receiver sender weak dispatch_uid _ ih =>
    apply addReceiver_keys_nodup
    exact List.Nodup.sublist
      ((clearDeadReceivers_receivers_sublist alive _).map Prod.fst) ih
  | disconnectStep alive receiver sender dispatch_uid _ ih =>
    rw [disconnect_receivers]
    apply List.Nodup.sublist
    · exact ((removeFirstKey_sublist _ _).trans
        (clearDeadReceivers_receivers_sublist alive _)).map Prod.fst
    · exact ih
  | liveStep alive sender _ ih =>
    rcases liveReceivers_receivers alive _ sender with heq | heq
    · rw [heq]
      exact List.Nodup.sublist
        ((clearDeadReceivers_receivers_sublist alive _).map Prod.fst) ih
    · rw [heq]
      exact ih
  | collected _ ih => simpa using ih

/-- C6: (1) in every bus state the program can reach — fresh signal,
connects, disconnects, live-receiver resolutions, garbage-collection
flagging — no two receiver entries share a lookup key; (2) a second
`connect` with the same `(receiver, sender)` pair or the same
`dispatch_uid` is a no-op at the state level, so in particular the
receiver-entry count after two identical connects equals the count after
one. -/
theorem terra_c6_connect_no_duplicates :
    (∀ s : SignalState, SignalReachable s →
      (s.receivers.map Prod.fst).Nodup) ∧
    (∀ (alive : Nat → Bool) (s : SignalState) (receiver : Nat)
        (sender : Option Nat) (weak : Bool) (dispatch_uid : Option Nat),
      connect alive (connect alive s receiver sender weak dispatch_uid)
          receiver sender weak dispatch_uid =
        connect alive s receiver sender weak dispatch_uid ∧
      (connect alive (connect alive s receiver sender weak dispatch_uid)
          receiver sender weak dispatch_uid).receivers.length =
        (connect alive s receiver sender weak dispatch_uid).receivers.length) :=
  ⟨signal_reachable_keys_nodup,
    fun alive s receiver sender weak dispatch_uid =>
      ⟨connect_idem alive s receiver sender weak dispatch_uid,
        by rw [connect_idem alive s receiver sender weak dispatch_uid]⟩⟩

/-- C6 witness: after one `connect` on a fresh signal the keys are
duplicate-free, and a second identical `connect` leaves the state (and so
the receiver count) unchanged. -/
theorem terra_c6_connect_no_duplicates_witness :
    SignalReachable (connect (fun _ => true) (signalInit false) 1 none false none) ∧
    ((connect (fun _ => true) (signalInit false) 1 none false none).receivers.map
      Prod.fst).Nodup ∧
    connect (fun _ => true)
        (connect (fun _ => true) (signalInit false) 1 none false none)
        1 none false none =
      connect (fun _ => true) (signalInit false) 1 none false none := by
  have hreach : SignalReachable
      (connect (fun _ => true) (signalInit false) 1 none false none) :=
    SignalReachable.connectStep (fun _ => true) 1 none false none
      (SignalReachable.init false)
  exact ⟨hreach,
    terra_c6_connect_no_duplicates.1 _ hreach,
    (terra_c6_connect_no_duplicates.2 (fun _ => true) _ 1 none false none).1⟩
